import Mathlib

/-!
Shallow embedding of `src/client/start_sploit.py` (DestructiveFarm client).

The Python program schedules rounds of sploit instances against a roster of
teams, harvests flags from their output, deduplicates them in a `FlagStorage`
and posts them in batches to a farm server.  The definitions below translate
the pure state-manipulating parts of that file: the flag storage
(`FlagStorage.add`, `pick_flags`, `mark_as_sent`), the instance bookkeeping
(`InstanceManager.register_start` / `register_stop`), the finishing and
launching phases of `run_sploit`, the posting-loop tick of `run_post_loop`,
the target-roster computation of `get_target_teams` and the per-round control
flow of `main`.  Threads are modelled by making every state change explicit;
the Python exceptions that the relevant code can raise are modelled with
`Option`.
-/

/-- One entry of `FlagStorage._queue`: the Python dict
`{'flag': item, 'team': team_name}` built in `FlagStorage.add`. -/
structure FlagRecord where
  flag : String
  team : String
deriving DecidableEq, Repr

/-- State of the Python `FlagStorage` object: the `_flags_seen` set
(modelled as a list, membership being what matters) and the `_queue` list. -/
structure FlagStorage where
  flags_seen : List String
  queue : List FlagRecord
deriving DecidableEq, Repr

/-- `FlagStorage()` constructor: empty seen-set and empty queue. -/
def FlagStorage.init : FlagStorage := ⟨[], []⟩

/-- `FlagStorage.add(self, flags, team_name)`: for each item of `flags`, if it
is not in `_flags_seen`, add it to `_flags_seen` and append
`{'flag': item, 'team': team_name}` to `_queue`.  The Python loop iterates the
given collection in some order; the list argument fixes that order. -/
def FlagStorage.add (s : FlagStorage) (flags : List String) (team_name : String) :
    FlagStorage :=
  match flags with
  | [] => s
  | item :: rest =>
      if item ∈ s.flags_seen then s.add rest team_name
      else FlagStorage.add
        { flags_seen := item :: s.flags_seen,
          queue := s.queue ++ [⟨item, team_name⟩] } rest team_name

/-- `FlagStorage.pick_flags(self, count)`: returns `self._queue[:count]`
without modifying the storage. -/
def FlagStorage.pick_flags (s : FlagStorage) (count : ℕ) : List FlagRecord :=
  s.queue.take count

/-- `FlagStorage.mark_as_sent(self, count)`: sets
`self._queue = self._queue[count:]`; `_flags_seen` is untouched. -/
def FlagStorage.mark_as_sent (s : FlagStorage) (count : ℕ) : FlagStorage :=
  { s with queue := s.queue.drop count }

/-- `FlagStorage.queue_size` property: `len(self._queue)`. -/
def FlagStorage.queue_size (s : FlagStorage) : ℕ :=
  s.queue.length

/-- The flags of the queued records, in queue order. -/
def queueFlags (s : FlagStorage) : List String :=
  s.queue.map FlagRecord.flag

/-- One `add` call as it appears in a trace: the token list presented and the
`team_name` argument. -/
def AddCall := List String × String

/-- Run a sequence of `add` calls against a storage, in order (the storage
lock linearizes concurrent calls into such a sequence). -/
def runAdds (s : FlagStorage) : List AddCall → FlagStorage
  | [] => s
  | (fl, tm) :: rest => runAdds (s.add fl tm) rest

/-- The team name of the first call of the trace whose token list contains
`t`, if any. -/
def firstPresenter : List AddCall → String → Option String
  | [], _ => none
  | (fl, tm) :: rest, t => if t ∈ fl then some tm else firstPresenter rest t

/-- `POST_FLAG_LIMIT` constant of the Python source. -/
def POST_FLAG_LIMIT : ℕ := 10000

/-- One tick of `run_post_loop`: pick up to `POST_FLAG_LIMIT` flags; if the
batch is non-empty, try `post_flags`; on success `mark_as_sent(len(batch))`,
on an exception leave the storage untouched.  `postSucceeds` tells whether the
`post_flags` call succeeds or raises. -/
def postTick (s : FlagStorage) (postSucceeds : Bool) : FlagStorage :=
  let flags_to_post := s.pick_flags POST_FLAG_LIMIT
  if flags_to_post.isEmpty then s
  else if postSucceeds then s.mark_as_sent flags_to_post.length
  else s

/-- State of the Python `InstanceManager` object: the `_counter`, the
`instances` dict (an association list from instance id to a process handle,
handles being abstracted as naturals) and the two counters. -/
structure InstanceManager where
  counter : ℕ
  instances : List (ℕ × ℕ)
  n_completed : ℕ
  n_killed : ℕ
deriving DecidableEq, Repr

/-- `InstanceManager()` constructor. -/
def InstanceManager.init : InstanceManager := ⟨0, [], 0, 0⟩

/-- `InstanceManager.register_start(self, process)`: stores the process under
the current counter value, increments the counter and returns the id. -/
def InstanceManager.register_start (m : InstanceManager) (process : ℕ) :
    ℕ × InstanceManager :=
  (m.counter,
   { m with instances := m.instances ++ [(m.counter, process)],
            counter := m.counter + 1 })

/-- `InstanceManager.register_stop(self, instance_id, was_killed)`:
`del self.instances[instance_id]` (a `KeyError`, modelled as `none`, if the id
is absent), then `n_completed += 1` and `n_killed += was_killed` (Python adds
a `bool` as 0 or 1). -/
def InstanceManager.register_stop (m : InstanceManager) (instance_id : ℕ)
    (was_killed : Bool) : Option InstanceManager :=
  if m.instances.any (fun p => p.1 = instance_id) then
    some { m with
           instances := m.instances.filter (fun p => p.1 ≠ instance_id),
           n_completed := m.n_completed + 1,
           n_killed := m.n_killed + (if was_killed then 1 else 0) }
  else none

/-- One operation on the instance manager, for reasoning about traces. -/
inductive IMOp where
  | start (process : ℕ)
  | stop (instance_id : ℕ) (was_killed : Bool)
deriving DecidableEq, Repr

/-- Apply one operation; `none` models the `KeyError` a bad `register_stop`
raises (in which case the counters are not touched). -/
def applyIMOp (m : InstanceManager) : IMOp → Option InstanceManager
  | .start p => some (m.register_start p).2
  | .stop i k => m.register_stop i k

/-- Run a sequence of operations; `none` as soon as one raises. -/
def runIMOps (m : InstanceManager) : List IMOp → Option InstanceManager
  | [] => some m
  | op :: rest => (applyIMOp m op).bind (fun m2 => runIMOps m2 rest)

/-- Number of `register_stop` calls in a trace. -/
def numStops (ops : List IMOp) : ℕ :=
  (ops.filter (fun op => match op with | .stop _ _ => true | _ => false)).length

/-- Number of `register_stop` calls with `was_killed = True` in a trace. -/
def numKilledStops (ops : List IMOp) : ℕ :=
  (ops.filter (fun op => match op with | .stop _ k => k | _ => false)).length

/-- The finishing phase of `run_sploit` (the second `try` block): the process
either terminates within `max_runtime` (`terminatedInTime = true`) or
`proc.wait` raises `TimeoutExpired` and `need_kill` is set; then, under the
lock, the process is killed iff `need_kill`, and
`register_stop(instance_id, need_kill)` runs.  Returns the resulting manager
(`none` for the caught bookkeeping exception) and how many times `proc.kill()`
was invoked. -/
def runSploitFinish (terminatedInTime : Bool) (instance_id : ℕ)
    (m : InstanceManager) : Option InstanceManager × ℕ :=
  let need_kill := !terminatedInTime
  (m.register_stop instance_id need_kill, if need_kill then 1 else 0)

/-- Result of the launching phase of `run_sploit` (the first `try` block). -/
structure LaunchResult where
  manager : InstanceManager
  spawned : Bool
  registered : Bool
  shutdownCalled : Bool
deriving DecidableEq, Repr

/-- The launching phase of `run_sploit`: under `instance_manager.lock`, if
`exit_event.is_set()` it returns immediately; otherwise `subprocess.Popen`
(abstracted by `launchOk` and the handle `proc`) is attempted — on success the
instance is registered, on an exception the error is logged and `shutdown()`
is called iff `attack_no == 1`. -/
def runSploitLaunch (exitSet launchOk : Bool) (attack_no : ℕ) (proc : ℕ)
    (m : InstanceManager) : LaunchResult :=
  if exitSet then ⟨m, false, false, false⟩
  else if launchOk then ⟨(m.register_start proc).2, true, true, false⟩
  else ⟨m, false, false, attack_no = 1⟩

/-- The part of the server configuration the round loop uses: the
`FLAG_FORMAT` pattern and the `TEAMS` mapping (an association list of team
name to address, in dict iteration order). -/
structure Config where
  flag_format : String
  teams : List (String × String)
deriving DecidableEq, Repr

/-- `get_target_teams(args, teams, distribute, attack_no)`: `--not-per-team`
yields the single pseudo-team `{'*': '0.0.0.0'}`; `--distribute K/N` keeps the
teams whose address hash (`binascii.crc32`, abstracted as `addrHash`) is
`K - 1` modulo `N`; otherwise the roster is returned unchanged (the body's
`if teams:` only logs). -/
def get_target_teams (not_per_team : Bool) (distribute : Option (ℕ × ℕ))
    (addrHash : String → ℕ) (teams : List (String × String)) :
    List (String × String) :=
  if not_per_team then [("*", "0.0.0.0")]
  else
    match distribute with
    | some (k, n) => teams.filter (fun p => addrHash p.2 % n = k - 1)
    | none => teams

/-- What one iteration of `main`'s `for attack_no in once_in_a_period(...)`
loop does: `terminated` is `return` (the loop and the program end),
`skipped` is `continue`, `crashed` is an uncaught exception (subscripting a
`None` config), and `dispatched` carries the
`(team_name, team_addr, max_runtime)` arguments of every `pool.submit` of
`run_sploit` made in that round. -/
inductive RoundOutcome where
  | terminated
  | skipped
  | crashed
  | dispatched (instances : List (String × String × ℚ))
deriving DecidableEq, Repr

/-- The per-round body of `main` once a usable config `cfg` is in hand:
compute the target roster; if it is empty, `return` on the first round and
`continue` otherwise; else compute
`max_runtime = args.attack_period / ceil(len(teams) / args.pool_size)`
(real division and real ceiling, as in Python 3) and submit `run_sploit` for
every team with that `max_runtime`. -/
def roundWithConfig (attack_no : ℕ) (cfg : Config) (not_per_team : Bool)
    (distribute : Option (ℕ × ℕ)) (addrHash : String → ℕ)
    (pool_size : ℕ) (attack_period : ℚ) : RoundOutcome :=
  let teams := get_target_teams not_per_team distribute addrHash cfg.teams
  if teams.isEmpty then
    (if attack_no = 1 then .terminated else .skipped)
  else
    let max_runtime :=
      attack_period / ((⌈(teams.length : ℚ) / (pool_size : ℚ)⌉ : ℤ) : ℚ)
    .dispatched (teams.map (fun p => (p.1, p.2, max_runtime)))

/-- One full iteration of `main`'s round loop: `fetched` is the result of the
`get_config` / `re.compile` `try` block (`none` when it raised), `old` the
config kept from the previous round.  A first-round fetch failure is
`return`; on later rounds the old config is reused (if there is none, Python
dies subscripting `None`). -/
def mainRoundStep (attack_no : ℕ) (fetched old : Option Config)
    (not_per_team : Bool) (distribute : Option (ℕ × ℕ)) (addrHash : String → ℕ)
    (pool_size : ℕ) (attack_period : ℚ) : RoundOutcome :=
  match fetched with
  | some cfg =>
      roundWithConfig attack_no cfg not_per_team distribute addrHash
        pool_size attack_period
  | none =>
      if attack_no = 1 then .terminated
      else
        match old with
        | none => .crashed
        | some cfg =>
            roundWithConfig attack_no cfg not_per_team distribute addrHash
              pool_size attack_period

/-- A concrete 120-team roster (names and addresses are the decimal digits
of the indices), for instantiating the deadline computation. -/
def teams120 : List (String × String) :=
  (List.range 120).map (fun i => (toString i, toString i))

/-- A config carrying the 120-team roster. -/
def cfg120 : Config := ⟨"[A-Z0-9]+=", teams120⟩

/-- The `pool.submit` arguments `main` produces for `cfg120` with
`--pool-size 50 --attack-period 120`: every team with `max_runtime = 40`. -/
def dispatched120 : List (String × String × ℚ) :=
  teams120.map (fun p => (p.1, p.2, (40 : ℚ)))

lemma take_append_drop_length_take {α : Type} (l : List α) (n : ℕ) :
    l.take n ++ l.drop (l.take n).length = l := by
  rw [List.length_take]
  rcases le_total n l.length with h | h
  · rw [min_eq_left h, List.take_append_drop]
  · rw [min_eq_right h, List.take_of_length_le h, List.drop_length,
      List.append_nil]

/-- Claim C10: `pick_flags` and `mark_as_sent` are total for every
nonnegative count, even beyond the queue length: `pick_flags` then returns
the whole queue, `mark_as_sent` empties it, and the seen set is untouched
in both cases (`pick_flags` never modifies the storage at all in the
embedding, as the Python method only reads `self._queue`). -/
theorem pick_and_mark_total_beyond_length (s : FlagStorage) (count : ℕ)
    (h : s.queue.length ≤ count) :
    s.pick_flags count = s.queue ∧
    (s.mark_as_sent count).queue = [] ∧
    (s.mark_as_sent count).flags_seen = s.flags_seen := by
  refine ⟨List.take_of_length_le h, List.drop_eq_nil_of_le h, rfl⟩

theorem pick_and_mark_total_beyond_length_witness :
    (FlagStorage.mk ["f1"] [⟨"f1", "alpha"⟩]).queue.length ≤ 5 ∧
    (FlagStorage.mk ["f1"] [⟨"f1", "alpha"⟩]).pick_flags 5 =
      [⟨"f1", "alpha"⟩] ∧
    ((FlagStorage.mk ["f1"] [⟨"f1", "alpha"⟩]).mark_as_sent 5).queue = [] :=
  ⟨by decide,
   (pick_and_mark_total_beyond_length ⟨["f1"], [⟨"f1", "alpha"⟩]⟩ 5
      (by decide)).1,
   (pick_and_mark_total_beyond_length ⟨["f1"], [⟨"f1", "alpha"⟩]⟩ 5
      (by decide)).2.1⟩

/-- Claim C4: `pick_flags limit` returns the oldest `min limit (queue
length)` records — the picked batch is the queue prefix whose remainder is
exactly what `mark_as_sent` leaves —, `mark_as_sent` does not touch the seen
set, and (FIFO) a record returned by `pick_flags` after a `mark_as_sent k`
is never one of the `k` committed records, for queue states whose flags are
distinct (an invariant of every reachable store, by claim C2). -/
theorem pick_flags_mark_as_sent_fifo (s : FlagStorage) (k n : ℕ)
    (hnd : (queueFlags s).Nodup) :
    s.pick_flags k ++ (s.mark_as_sent k).queue = s.queue ∧
    (s.pick_flags k).length = min k s.queue.length ∧
    (s.mark_as_sent k).flags_seen = s.flags_seen ∧
    ∀ r ∈ (s.mark_as_sent k).pick_flags n, r ∉ s.pick_flags k := by
  refine ⟨List.take_append_drop k s.queue, List.length_take k s.queue, rfl, ?_⟩
  intro r hr hrk
  have hq : s.queue.Nodup := List.Nodup.of_map FlagRecord.flag hnd
  have hsplit : (s.queue.take k ++ s.queue.drop k).Nodup := by
    rw [List.take_append_drop]; exact hq
  have hdisj := (List.nodup_append.mp hsplit).2.2
  have hrd : r ∈ s.queue.drop k := List.take_subset n _ hr
  exact hdisj hrk hrd

theorem pick_flags_mark_as_sent_fifo_witness :
    (queueFlags ⟨["f1", "f2"], [⟨"f1", "a"⟩, ⟨"f2", "b"⟩]⟩).Nodup ∧
    (⟨"f2", "b"⟩ : FlagRecord) ∈
      ((FlagStorage.mk ["f1", "f2"] [⟨"f1", "a"⟩, ⟨"f2", "b"⟩]).mark_as_sent
        1).pick_flags 1 ∧
    (⟨"f2", "b"⟩ : FlagRecord) ∉
      (FlagStorage.mk ["f1", "f2"] [⟨"f1", "a"⟩, ⟨"f2", "b"⟩]).pick_flags 1 :=
  ⟨by decide, by decide,
   (pick_flags_mark_as_sent_fifo ⟨["f1", "f2"], [⟨"f1", "a"⟩, ⟨"f2", "b"⟩]⟩
      1 1 (by decide)).2.2.2 ⟨"f2", "b"⟩ (by decide)⟩

/-- Claim C5: a posting tick on a non-empty queue leaves the storage
untouched when the `post_flags` call fails, and on success removes exactly
the picked batch — the prefix of length `len(batch)` — from the front of the
queue. -/
theorem post_tick_retry_and_commit (s : FlagStorage) (h : s.queue ≠ []) :
    postTick s false = s ∧
    s.pick_flags POST_FLAG_LIMIT ++ (postTick s true).queue = s.queue ∧
    (postTick s true).queue =
      s.queue.drop (s.pick_flags POST_FLAG_LIMIT).length := by
  have hne : (s.pick_flags POST_FLAG_LIMIT).isEmpty = false := by
    unfold FlagStorage.pick_flags POST_FLAG_LIMIT
    cases hq : s.queue with
    | nil => exact absurd hq h
    | cons a l => rfl
  simp only [postTick, hne, Bool.false_eq_true, if_false, if_true]
  exact ⟨trivial, take_append_drop_length_take s.queue POST_FLAG_LIMIT, rfl⟩

/-- Claim C8: when the exit event is already set at the moment `run_sploit`
takes the `instance_manager` lock, it returns at once: no process is
launched, no instance is registered, the manager is unchanged and
`shutdown()` is not called. -/
theorem no_spawn_after_exit_event (launchOk : Bool) (attack_no proc : ℕ)
    (m : InstanceManager) :
    runSploitLaunch true launchOk attack_no proc m = ⟨m, false, false, false⟩ :=
  rfl

/-- Claim C7: whenever a round dispatches instances, every dispatched
instance is handed the deadline
`attack_period / ceil(|targets| / pool_size)` (with `|targets|` the number
of dispatched instances); and concretely, with period 120, pool size 50 and
120 targets, every instance is dispatched with deadline exactly 40. -/
theorem dispatched_deadline_formula :
    (∀ (attack_no : ℕ) (cfg : Config) (old : Option Config) (npt : Bool)
       (dist : Option (ℕ × ℕ)) (hash : String → ℕ) (pool : ℕ) (period : ℚ)
       (l : List (String × String × ℚ)),
       mainRoundStep attack_no (some cfg) old npt dist hash pool period =
         RoundOutcome.dispatched l →
       ∀ x ∈ l,
         x.2.2 = period / ((⌈(l.length : ℚ) / ((pool : ℕ) : ℚ)⌉ : ℤ) : ℚ)) ∧
    mainRoundStep 1 (some cfg120) none false none (fun _ => 0) 50 120 =
      RoundOutcome.dispatched dispatched120 := by
  constructor
  · intro attack_no cfg old npt dist hash pool period l heq x hx
    simp only [mainRoundStep, roundWithConfig] at heq
    by_cases hte : (get_target_teams npt dist hash cfg.teams).isEmpty
    · rw [if_pos hte] at heq
      split_ifs at heq
    · rw [if_neg hte] at heq
      have hl := (RoundOutcome.dispatched.injEq _ _).mp heq.symm
      subst hl
      rw [List.length_map]
      obtain ⟨p, _, hp⟩ := List.mem_map.mp hx
      rw [← hp]
  · have hlen : ((teams120.length : ℚ)) = 120 := by
      norm_num [teams120]
    have h3 : (⌈(teams120.length : ℚ) / ((50 : ℕ) : ℚ)⌉ : ℤ) = 3 := by
      rw [hlen, Int.ceil_eq_iff]
      norm_num
    have hne : teams120.isEmpty = false := rfl
    simp only [mainRoundStep, roundWithConfig, cfg120, get_target_teams,
      if_false, Bool.false_eq_true, hne, dispatched120]
    rw [h3]
    norm_num

/-- Claim C3 (counterexample): on the very first round (`attack_no == 1`) an
empty target roster does not merely skip the round — `main` returns, ending
the program, instead of continuing to the next round. -/
theorem empty_roster_first_round_terminates :
    mainRoundStep 1 (some ⟨"", []⟩) none false none (fun _ => 0) 50 120 =
      RoundOutcome.terminated ∧
    RoundOutcome.terminated ≠ RoundOutcome.skipped := by
  exact ⟨rfl, by intro h; cases h⟩

/-- Claim C3 (amended): on every round after the first, an empty roster — as
computed by `get_target_teams`, hence also when `--distribute` filtering
empties it — makes the round be skipped (`continue`), not an error; on the
very first round the program terminates instead. -/
theorem empty_roster_later_round_skipped (attack_no : ℕ) (cfg : Config)
    (old : Option Config) (npt : Bool) (dist : Option (ℕ × ℕ))
    (hash : String → ℕ) (pool : ℕ) (period : ℚ)
    (h2 : 2 ≤ attack_no)
    (hempty : (get_target_teams npt dist hash cfg.teams).isEmpty = true) :
    mainRoundStep attack_no (some cfg) old npt dist hash pool period =
      RoundOutcome.skipped := by
  have hne : attack_no ≠ 1 := by omega
  simp only [mainRoundStep, roundWithConfig, hempty, if_true, if_neg hne]

theorem empty_roster_later_round_skipped_witness :
    (2 ≤ 2) ∧
    (get_target_teams false (some (1, 2)) (fun _ => 1)
      (Config.mk "" [("t1", "10.0.0.1")]).teams).isEmpty = true ∧
    mainRoundStep 2 (some ⟨"", [("t1", "10.0.0.1")]⟩) none false (some (1, 2))
      (fun _ => 1) 50 120 = RoundOutcome.skipped :=
  ⟨by decide, by decide,
   empty_roster_later_round_skipped 2 ⟨"", [("t1", "10.0.0.1")]⟩ none false
     (some (1, 2)) (fun _ => 1) 50 120 (by decide) (by decide)⟩

/-- Claim C6: a configuration-fetch failure on the first round makes `main`
return (the program ends, dispatching no instance), while on later rounds the
loop continues with the old config (the step never terminates or crashes);
and a sploit-launch failure calls `shutdown()` exactly when it happens on the
first round — on later rounds it is only logged and nothing is shut down. -/
theorem first_round_failures_fatal :
    (∀ (old : Option Config) (npt : Bool) (dist : Option (ℕ × ℕ))
       (hash : String → ℕ) (pool : ℕ) (period : ℚ),
       mainRoundStep 1 none old npt dist hash pool period =
         RoundOutcome.terminated) ∧
    (∀ (attack_no : ℕ) (cfg : Config) (npt : Bool) (dist : Option (ℕ × ℕ))
       (hash : String → ℕ) (pool : ℕ) (period : ℚ), 2 ≤ attack_no →
       mainRoundStep attack_no none (some cfg) npt dist hash pool period ≠
           RoundOutcome.terminated ∧
         mainRoundStep attack_no none (some cfg) npt dist hash pool period ≠
           RoundOutcome.crashed) ∧
    (∀ (proc : ℕ) (m : InstanceManager),
       (runSploitLaunch false false 1 proc m).shutdownCalled = true ∧
       (runSploitLaunch false false 1 proc m).spawned = false) ∧
    (∀ (attack_no proc : ℕ) (m : InstanceManager), 2 ≤ attack_no →
       (runSploitLaunch false false attack_no proc m).shutdownCalled = false) := by
  refine ⟨fun old npt dist hash pool period => rfl, ?_, fun proc m => ⟨rfl, rfl⟩, ?_⟩
  · intro attack_no cfg npt dist hash pool period hge
    have hne : attack_no ≠ 1 := by omega
    by_cases hte : (get_target_teams npt dist hash cfg.teams).isEmpty
    · constructor <;> simp [mainRoundStep, roundWithConfig, hte, hne]
    · constructor <;> simp [mainRoundStep, roundWithConfig, hte, hne]
  · intro attack_no proc m hge
    have hne : attack_no ≠ 1 := by omega
    simp [runSploitLaunch, hne]

theorem first_round_failures_fatal_witness :
    mainRoundStep 1 none none false none (fun _ => 0) 50 120 =
      RoundOutcome.terminated ∧
    (2 ≤ 2) ∧
    mainRoundStep 2 none (some ⟨"", []⟩) false none (fun _ => 0) 50 120 ≠
      RoundOutcome.terminated ∧
    (runSploitLaunch false false 1 0 InstanceManager.init).shutdownCalled =
      true ∧
    (runSploitLaunch false false 2 0 InstanceManager.init).shutdownCalled =
      false :=
  ⟨first_round_failures_fatal.1 none false none (fun _ => 0) 50 120,
   by decide,
   (first_round_failures_fatal.2.1 2 ⟨"", []⟩ false none (fun _ => 0) 50 120
      (by decide)).1,
   (first_round_failures_fatal.2.2.1 0 InstanceManager.init).1,
   first_round_failures_fatal.2.2.2 2 0 InstanceManager.init (by decide)⟩

theorem dispatched_deadline_formula_witness :
    mainRoundStep 1 (some cfg120) none false none (fun _ => 0) 50 120 =
      RoundOutcome.dispatched dispatched120 ∧
    ("0", "0", (40 : ℚ)) ∈ dispatched120 ∧
    (("0", "0", (40 : ℚ)) : String × String × ℚ).2.2 =
      120 / ((⌈(dispatched120.length : ℚ) / (((50 : ℕ)) : ℚ)⌉ : ℤ) : ℚ) :=
  ⟨dispatched_deadline_formula.2,
   by decide,
   dispatched_deadline_formula.1 1 cfg120 none false none (fun _ => 0) 50 120
     dispatched120 dispatched_deadline_formula.2 ("0", "0", (40 : ℚ))
     (by decide)⟩

theorem post_tick_retry_and_commit_witness :
    (FlagStorage.mk ["f1", "f2", "f3"]
        [⟨"f1", "a"⟩, ⟨"f2", "a"⟩, ⟨"f3", "b"⟩]).queue ≠ [] ∧
    postTick ⟨["f1", "f2", "f3"], [⟨"f1", "a"⟩, ⟨"f2", "a"⟩, ⟨"f3", "b"⟩]⟩
        false =
      ⟨["f1", "f2", "f3"], [⟨"f1", "a"⟩, ⟨"f2", "a"⟩, ⟨"f3", "b"⟩]⟩ ∧
    (postTick ⟨["f1", "f2", "f3"], [⟨"f1", "a"⟩, ⟨"f2", "a"⟩, ⟨"f3", "b"⟩]⟩
        false).queue_size = 3 ∧
    (postTick
        (postTick ⟨["f1", "f2", "f3"], [⟨"f1", "a"⟩, ⟨"f2", "a"⟩, ⟨"f3", "b"⟩]⟩
          false) true).queue_size = 0 :=
  ⟨by decide,
   (post_tick_retry_and_commit
      ⟨["f1", "f2", "f3"], [⟨"f1", "a"⟩, ⟨"f2", "a"⟩, ⟨"f3", "b"⟩]⟩
      (by decide)).1,
   by decide, by decide⟩

/-- Claim C1 (counterexample): a timed-out instance is killed once and
`n_killed` goes from 0 to 1, but `n_completed` is incremented as well —
`register_stop` bumps it from 0 to 1 — so the claim's "never increments the
completed counter" is false on the code. -/
theorem killed_instance_increments_completed :
    (runSploitFinish false 0 ⟨1, [(0, 42)], 0, 0⟩).2 = 1 ∧
    (runSploitFinish false 0 ⟨1, [(0, 42)], 0, 0⟩).1 =
      some ⟨1, [], 1, 1⟩ ∧
    ((1 : ℕ) ≠ 0) := by
  refine ⟨rfl, by decide, by decide⟩

/-- Claim C1 (amended): an instance whose process does not terminate within
its deadline is killed exactly once and increments `n_killed` exactly once;
it also increments `n_completed` exactly once, because `n_completed` counts
every finished instance, the killed ones included. -/
theorem timeout_kill_accounting (m : InstanceManager) (instance_id : ℕ)
    (hmem : m.instances.any (fun p => p.1 = instance_id) = true) :
    (runSploitFinish false instance_id m).2 = 1 ∧
    (runSploitFinish false instance_id m).1 =
      some { m with
             instances := m.instances.filter (fun p => p.1 ≠ instance_id),
             n_completed := m.n_completed + 1,
             n_killed := m.n_killed + 1 } := by
  constructor
  · rfl
  · simp only [runSploitFinish, InstanceManager.register_stop, hmem,
      Bool.not_false, if_true, if_pos]

theorem timeout_kill_accounting_witness :
    (InstanceManager.mk 2 [(0, 42), (1, 43)] 5 2).instances.any
        (fun p => p.1 = 1) = true ∧
    (runSploitFinish false 1 ⟨2, [(0, 42), (1, 43)], 5, 2⟩).2 = 1 ∧
    (runSploitFinish false 1 ⟨2, [(0, 42), (1, 43)], 5, 2⟩).1 =
      some ⟨2, [(0, 42)], 6, 3⟩ :=
  ⟨by decide,
   (timeout_kill_accounting ⟨2, [(0, 42), (1, 43)], 5, 2⟩ 1 (by decide)).1,
   by
     have h :=
       (timeout_kill_accounting ⟨2, [(0, 42), (1, 43)], 5, 2⟩ 1 (by decide)).2
     rw [h]; decide⟩

lemma numStops_cons_start (p : ℕ) (rest : List IMOp) :
    numStops (IMOp.start p :: rest) = numStops rest := by
  simp [numStops, List.filter]

lemma numStops_cons_stop (i : ℕ) (k : Bool) (rest : List IMOp) :
    numStops (IMOp.stop i k :: rest) = numStops rest + 1 := by
  simp [numStops, List.filter]

lemma numKilledStops_cons_start (p : ℕ) (rest : List IMOp) :
    numKilledStops (IMOp.start p :: rest) = numKilledStops rest := by
  simp [numKilledStops, List.filter]

lemma numKilledStops_cons_stop (i : ℕ) (k : Bool) (rest : List IMOp) :
    numKilledStops (IMOp.stop i k :: rest) =
      numKilledStops rest + (if k then 1 else 0) := by
  cases k <;> simp [numKilledStops, List.filter]

lemma runIMOps_counters : ∀ (ops : List IMOp) (m0 m : InstanceManager),
    runIMOps m0 ops = some m →
    m.n_completed = m0.n_completed + numStops ops ∧
    m.n_killed = m0.n_killed + numKilledStops ops := by
  intro ops
  induction ops with
  | nil =>
    intro m0 m h
    simp only [runIMOps, Option.some.injEq] at h
    subst h
    simp [numStops, numKilledStops]
  | cons op rest ih =>
    intro m0 m h
    simp only [runIMOps] at h
    obtain ⟨m1, hop, hrest⟩ := Option.bind_eq_some.mp h
    obtain ⟨h1, h2⟩ := ih m1 m hrest
    cases op with
    | start p =>
      simp only [applyIMOp, Option.some.injEq] at hop
      subst hop
      simp only [InstanceManager.register_start] at h1 h2
      rw [numStops_cons_start, numKilledStops_cons_start]
      exact ⟨h1, h2⟩
    | stop i k =>
      simp only [applyIMOp, InstanceManager.register_stop] at hop
      by_cases hc : (m0.instances.any fun p => p.1 = i) = true
      · rw [if_pos hc] at hop
        replace hop := Option.some.inj hop
        subst hop
        simp only at h1 h2
        rw [numStops_cons_stop, numKilledStops_cons_stop]
        constructor
        · omega
        · cases k
          · simp only [Bool.false_eq_true, if_false] at h2 ⊢
            omega
          · simp only [if_true] at h2 ⊢
            omega
      · rw [if_neg hc] at hop
        exact Option.noConfusion hop

lemma numKilledStops_le (ops : List IMOp) : numKilledStops ops ≤ numStops ops := by
  induction ops with
  | nil => simp [numStops, numKilledStops]
  | cons op rest ih =>
    cases op with
    | start p =>
      rw [numStops_cons_start, numKilledStops_cons_start]
      exact ih
    | stop i k =>
      rw [numStops_cons_stop, numKilledStops_cons_stop]
      cases k <;> simp <;> omega

/-- Claim C9: after any successful sequence of `register_start` /
`register_stop` operations from a fresh `InstanceManager`, `n_killed ≤
n_completed` (and both are naturals, hence nonnegative) and `n_completed`
equals the total number of `register_stop` calls — the killed instances are
counted in it too; moreover each single operation leaves both counters
non-decreasing. -/
theorem instance_counters_invariant :
    (∀ (ops : List IMOp) (m : InstanceManager),
       runIMOps InstanceManager.init ops = some m →
       m.n_killed ≤ m.n_completed ∧ m.n_completed = numStops ops) ∧
    (∀ (m : InstanceManager) (op : IMOp) (m2 : InstanceManager),
       applyIMOp m op = some m2 →
       m.n_completed ≤ m2.n_completed ∧ m.n_killed ≤ m2.n_killed) := by
  constructor
  · intro ops m h
    obtain ⟨h1, h2⟩ := runIMOps_counters ops InstanceManager.init m h
    have hk := numKilledStops_le ops
    simp only [InstanceManager.init] at h1 h2
    constructor
    · omega
    · omega
  · intro m op m2 h
    have hops : runIMOps m [op] = some m2 := by
      simp [runIMOps, h]
    have := runIMOps_counters [op] m m2 hops
    constructor <;> omega

theorem instance_counters_invariant_witness :
    runIMOps InstanceManager.init [IMOp.start 7, IMOp.stop 0 true] =
      some ⟨1, [], 1, 1⟩ ∧
    (InstanceManager.mk 1 [] 1 1).n_killed ≤
      (InstanceManager.mk 1 [] 1 1).n_completed ∧
    (InstanceManager.mk 1 [] 1 1).n_completed =
      numStops [IMOp.start 7, IMOp.stop 0 true] :=
  ⟨by decide,
   (instance_counters_invariant.1 [IMOp.start 7, IMOp.stop 0 true]
      ⟨1, [], 1, 1⟩ (by decide)).1,
   (instance_counters_invariant.1 [IMOp.start 7, IMOp.stop 0 true]
      ⟨1, [], 1, 1⟩ (by decide)).2⟩

lemma add_props (tm : String) : ∀ (fl : List String) (s : FlagStorage),
    (queueFlags s).Nodup → (∀ r ∈ s.queue, r.flag ∈ s.flags_seen) →
    ((queueFlags (s.add fl tm)).Nodup ∧
     (∀ r ∈ (s.add fl tm).queue, r.flag ∈ (s.add fl tm).flags_seen) ∧
     (∀ t, t ∈ s.flags_seen → t ∈ (s.add fl tm).flags_seen) ∧
     (∀ t, t ∈ fl → t ∈ (s.add fl tm).flags_seen) ∧
     (∀ r ∈ (s.add fl tm).queue,
       r ∈ s.queue ∨ (r.flag ∉ s.flags_seen ∧ r.flag ∈ fl ∧ r.team = tm))) := by
  intro fl
  induction fl with
  | nil =>
    intro s hnd hsub
    simp only [FlagStorage.add]
    exact ⟨hnd, hsub, fun t ht => ht,
           fun t ht => absurd ht (List.not_mem_nil t),
           fun r hr => Or.inl hr⟩
  | cons item rest ih =>
    intro s hnd hsub
    by_cases hmem : item ∈ s.flags_seen
    · have hstep : s.add (item :: rest) tm = s.add rest tm := by
        simp [FlagStorage.add, hmem]
      rw [hstep]
      obtain ⟨p1, p2, p3, p4, p5⟩ := ih s hnd hsub
      refine ⟨p1, p2, p3, ?_, ?_⟩
      · intro t ht
        rcases List.mem_cons.mp ht with h | h
        · exact h ▸ p3 item hmem
        · exact p4 t h
      · intro r hr
        rcases p5 r hr with h | ⟨hn, hin, hteam⟩
        · exact Or.inl h
        · exact Or.inr ⟨hn, List.mem_cons_of_mem _ hin, hteam⟩
    · have hstep : s.add (item :: rest) tm =
          FlagStorage.add ⟨item :: s.flags_seen, s.queue ++ [⟨item, tm⟩]⟩
            rest tm := by
        simp [FlagStorage.add, hmem]
      rw [hstep]
      have hq : queueFlags ⟨item :: s.flags_seen, s.queue ++ [⟨item, tm⟩]⟩ =
          queueFlags s ++ [item] := by
        simp [queueFlags]
      have hnd1 :
          (queueFlags ⟨item :: s.flags_seen, s.queue ++ [⟨item, tm⟩]⟩).Nodup := by
        rw [hq]
        refine List.nodup_append.mpr ⟨hnd, List.nodup_singleton item, ?_⟩
        intro t ht hts
        rw [List.mem_singleton.mp hts] at ht
        obtain ⟨r, hr, hrf⟩ := List.mem_map.mp ht
        exact hmem (hrf ▸ hsub r hr)
      have hsub1 : ∀ r ∈ (FlagStorage.mk (item :: s.flags_seen)
          (s.queue ++ [⟨item, tm⟩])).queue,
          r.flag ∈ (FlagStorage.mk (item :: s.flags_seen)
            (s.queue ++ [⟨item, tm⟩])).flags_seen := by
        intro r hr
        rcases List.mem_append.mp hr with h | h
        · exact List.mem_cons_of_mem _ (hsub r h)
        · rw [List.mem_singleton.mp h]
          exact List.mem_cons_self _ _
      obtain ⟨p1, p2, p3, p4, p5⟩ :=
        ih ⟨item :: s.flags_seen, s.queue ++ [⟨item, tm⟩]⟩ hnd1 hsub1
      refine ⟨p1, p2, ?_, ?_, ?_⟩
      · intro t ht
        exact p3 t (List.mem_cons_of_mem _ ht)
      · intro t ht
        rcases List.mem_cons.mp ht with h | h
        · exact h ▸ p3 item (List.mem_cons_self _ _)
        · exact p4 t h
      · intro r hr
        rcases p5 r hr with h | ⟨hn, hin, hteam⟩
        · rcases List.mem_append.mp h with h2 | h2
          · exact Or.inl h2
          · have hre : r = ⟨item, tm⟩ := List.mem_singleton.mp h2
            refine Or.inr ⟨?_, ?_, ?_⟩
            · rw [hre]; exact hmem
            · rw [hre]; exact List.mem_cons_self _ _
            · rw [hre]
        · have hn2 : r.flag ∉ s.flags_seen := fun hx =>
            hn (List.mem_cons_of_mem _ hx)
          exact Or.inr ⟨hn2, List.mem_cons_of_mem _ hin, hteam⟩

lemma runAdds_spec : ∀ (calls : List AddCall) (s : FlagStorage),
    (queueFlags s).Nodup → (∀ r ∈ s.queue, r.flag ∈ s.flags_seen) →
    ((queueFlags (runAdds s calls)).Nodup ∧
     (∀ r ∈ (runAdds s calls).queue,
       r.flag ∈ (runAdds s calls).flags_seen) ∧
     (∀ r ∈ (runAdds s calls).queue,
       r ∈ s.queue ∨ (r.flag ∉ s.flags_seen ∧
         firstPresenter calls r.flag = some r.team))) := by
  intro calls
  induction calls with
  | nil =>
    intro s hnd hsub
    exact ⟨hnd, hsub, fun r hr => Or.inl hr⟩
  | cons c rest ih =>
    obtain ⟨fl, tm⟩ := c
    intro s hnd hsub
    obtain ⟨a1, a2, a3, a4, a5⟩ := add_props tm fl s hnd hsub
    have hrun : runAdds s ((fl, tm) :: rest) = runAdds (s.add fl tm) rest := rfl
    rw [hrun]
    obtain ⟨p1, p2, p3⟩ := ih (s.add fl tm) a1 a2
    refine ⟨p1, p2, ?_⟩
    intro r hr
    rcases p3 r hr with h | ⟨hn, hfp⟩
    · rcases a5 r h with h2 | ⟨hn2, hin2, hteam2⟩
      · exact Or.inl h2
      · refine Or.inr ⟨hn2, ?_⟩
        show (if r.flag ∈ fl then some tm else firstPresenter rest r.flag) =
          some r.team
        rw [if_pos hin2, hteam2]
    · have hnseen : r.flag ∉ s.flags_seen := fun hx => hn (a3 _ hx)
      have hnfl : r.flag ∉ fl := fun hx => hn (a4 _ hx)
      refine Or.inr ⟨hnseen, ?_⟩
      show (if r.flag ∈ fl then some tm else firstPresenter rest r.flag) =
        some r.team
      rw [if_neg hnfl]
      exact hfp

/-- Claim C2: starting from a fresh `FlagStorage`, after any sequence of
`add` calls (any interleaving of token lists from any source teams, possibly
overlapping), every distinct token appears in the pending queue at most
once, and each queued record is tagged with the team name of the call that
first presented its token — a later observation of an already-seen token is
dropped even when its source team differs. -/
theorem flag_dedup_first_presenter (calls : List AddCall) :
    (queueFlags (runAdds FlagStorage.init calls)).Nodup ∧
    (∀ t, (queueFlags (runAdds FlagStorage.init calls)).count t ≤ 1) ∧
    ∀ r ∈ (runAdds FlagStorage.init calls).queue,
      firstPresenter calls r.flag = some r.team := by
  obtain ⟨p1, p2, p3⟩ := runAdds_spec calls FlagStorage.init
    (by simp [queueFlags, FlagStorage.init])
    (by simp [FlagStorage.init])
  refine ⟨p1, fun t => List.nodup_iff_count_le_one.mp p1 t, ?_⟩
  intro r hr
  rcases p3 r hr with h | ⟨_, hfp⟩
  · simp [FlagStorage.init] at h
  · exact hfp

theorem flag_dedup_first_presenter_witness :
    (⟨"B", "t1"⟩ : FlagRecord) ∈
      (runAdds FlagStorage.init
        [(["A", "B"], "t1"), (["B", "C"], "t2")]).queue ∧
    firstPresenter [(["A", "B"], "t1"), (["B", "C"], "t2")] "B" =
      some "t1" :=
  ⟨by decide,
   (flag_dedup_first_presenter [(["A", "B"], "t1"), (["B", "C"], "t2")]).2.2
     ⟨"B", "t1"⟩ (by decide)⟩
